import Mathlib

/-!
Shallow embedding of the `econo` repository (src/econo/market.py and
src/econo/unit.py) and verification of the frozen claims about it.

Modelling conventions:
  - Python floats (prices, balances, rates) are modelled as `ℚ`;
  - Python ints (deltas, ages, counters) are `Int`, quantities are `Nat`
    (the market functions assert `qty >= 0`);
  - Python dicts are insertion-ordered association lists
    `List (String × _)`; dict assignment of an existing key keeps its
    position, assignment of a new key appends (CPython semantics);
  - functions that receive the mutable market dict are translated in
    state-passing style `... → result × Market`, so that the absence of
    market mutation is a provable statement, not a typing artifact;
  - the bodies of `bid_at` and `ask_at` in market.py bind the resource
    record as `rec` but then read the name `res` (market.py lines 22-24
    and 58-59), which is unbound, so a literal run raises `NameError`
    before the pricing loop.  The pricing definitions below follow the
    evident intent (`res` denotes the record bound as `rec`); the literal
    error-raising behaviour is modelled separately by `ask_at_literal`
    and `bid_at_literal`.
-/

namespace Econo

/-- Price model of a resource (`rec['type']` in market.py, either
`'linear'` or `'exponential'`). -/
inductive RType where
  | linear
  | exponential
deriving DecidableEq

/-- Market record for one resource: `type`, `delta`, `rate`, `initial`
(market.py module docstring). -/
structure RRec where
  rtype : RType
  delta : Int
  rate : ℚ
  initial : ℚ
deriving DecidableEq

/-- A market maps resource names to records; modelled as an
insertion-ordered association list (a Python dict). -/
abbrev Market := List (String × RRec)

/-- First binding of a key in an association list (Python dict read). -/
def lookupKey {α : Type} : List (String × α) → String → Option α
  | [], _ => none
  | (k, v) :: rest, key => if k = key then some v else lookupKey rest key

/-- Replace the value at the first binding of a key, keeping its position
(Python dict write to an existing key). -/
def setKey {α : Type} : List (String × α) → String → α → List (String × α)
  | [], _, _ => []
  | (k, v) :: rest, key, a =>
      if k = key then (k, a) :: rest else (k, v) :: setKey rest key a

/-- Python dict assignment: overwrite in place when the key exists,
append a fresh binding otherwise. -/
def insertKey {α : Type} (l : List (String × α)) (key : String) (a : α) :
    List (String × α) :=
  if (lookupKey l key).isSome then setKey l key a else l ++ [(key, a)]

/-- Remove the first binding of a key (`dict.pop`). -/
def eraseKey {α : Type} : List (String × α) → String → List (String × α)
  | [], _ => []
  | (k, v) :: rest, key => if k = key then rest else (k, v) :: eraseKey rest key

/-- Price contribution of one iteration of the pricing loops in
`bid_at`/`ask_at`, at a given delta `d`: clamped linear price
`max 0 (initial + d * rate)` or exponential price `initial * rate ^ d`. -/
def stepPrice (rt : RType) (initial rate : ℚ) (d : Int) : ℚ :=
  match rt with
  | .linear => max 0 (initial + d * rate)
  | .exponential => initial * rate ^ d

/-- The `for step in xrange(qty)` loop of `bid_at` (market.py lines
27-35): price accumulates at `delta - 1`, then `delta` decreases. -/
def bidLoop (rt : RType) (initial rate : ℚ) : Int → Nat → ℚ
  | _, 0 => 0
  | d, q + 1 => stepPrice rt initial rate (d - 1) + bidLoop rt initial rate (d - 1) q

/-- The `for step in xrange(qty)` loop of `ask_at` (market.py lines
62-70): price accumulates at `delta`, then `delta` increases. -/
def askLoop (rt : RType) (initial rate : ℚ) : Int → Nat → ℚ
  | _, 0 => 0
  | d, q + 1 => stepPrice rt initial rate d + askLoop rt initial rate (d + 1) q

/-- `bid_at(market, resource, qty)` in state-passing form: the sale value
of `qty` units, together with the market as the function leaves it.
This is the EVIDENT-INTENT reading (`res` taken as the record bound as
`rec`): the source as written raises `NameError` before the loop, which
is modelled by `bid_at_literal` below and settles C1, C2, C6 and C7.
A missing resource is an assertion failure in Python; the total model
returns price 0 there (no claim exercises that path). -/
def bid_at_st (m : Market) (resource : String) (qty : Nat) : ℚ × Market :=
  match lookupKey m resource with
  | some rec => (bidLoop rec.rtype rec.initial rec.rate rec.delta qty, m)
  | none => (0, m)

/-- `ask_at(market, resource, qty)` in state-passing form: the purchase
cost of `qty` units, together with the market as the function leaves it.
Evident-intent reading, like `bid_at_st`; the literal raising behaviour
is `ask_at_literal`. -/
def ask_at_st (m : Market) (resource : String) (qty : Nat) : ℚ × Market :=
  match lookupKey m resource with
  | some rec => (askLoop rec.rtype rec.initial rec.rate rec.delta qty, m)
  | none => (0, m)

/-- Pure view of `bid_at`. -/
def bid_at (m : Market) (resource : String) (qty : Nat) : ℚ :=
  (bid_at_st m resource qty).1

/-- Pure view of `ask_at`. -/
def ask_at (m : Market) (resource : String) (qty : Nat) : ℚ :=
  (ask_at_st m resource qty).1

/-- `sell(market, resource, qty)`: `rec['delta'] -= qty`
(market.py lines 39-47). -/
def sell (m : Market) (resource : String) (qty : Nat) : Market :=
  match lookupKey m resource with
  | some rec => setKey m resource { rec with delta := rec.delta - qty }
  | none => m

/-- `buy(market, resource, qty)`: `rec['delta'] += qty`
(market.py lines 74-82). -/
def buy (m : Market) (resource : String) (qty : Nat) : Market :=
  match lookupKey m resource with
  | some rec => setKey m resource { rec with delta := rec.delta + qty }
  | none => m

/-- Python runtime errors relevant to the literal translation of the
pricing code: failed asserts, the unbound-name read in
`bid_at`/`ask_at`, and division by a zero operation duration in
`price_op`. -/
inductive PyErr where
  | assertionFailed
  | nameError
  | zeroDivisionError
deriving DecidableEq

/-- Literal translation of `ask_at` (market.py lines 50-72) with a Python
int quantity: assert the resource is in the market, assert `qty >= 0`,
then the unpacking line `... = (res['type'], res['initial'], ...)` reads
the unbound name `res` (the record was bound as `rec`), so every call
that passes both assertions raises `NameError`, for any quantity. -/
def ask_at_literal (m : Market) (resource : String) (qty : Int) : Except PyErr ℚ :=
  if (lookupKey m resource).isSome then
    if 0 ≤ qty then Except.error PyErr.nameError
    else Except.error PyErr.assertionFailed
  else Except.error PyErr.assertionFailed

/-- Literal translation of `bid_at` (market.py lines 15-37); same shape as
`ask_at_literal`: the unpacking line raises `NameError` on the unbound
name `res` before the quantity loop is reached. -/
def bid_at_literal (m : Market) (resource : String) (qty : Int) : Except PyErr ℚ :=
  if (lookupKey m resource).isSome then
    if 0 ≤ qty then Except.error PyErr.nameError
    else Except.error PyErr.assertionFailed
  else Except.error PyErr.assertionFailed

/-- The `Op` namedtuple of unit.py: friendly name, resource costs,
resource products, and the number of time steps consumed. -/
structure Op where
  name : String
  costs : List (String × Nat)
  products : List (String × Nat)
  time : Nat
deriving DecidableEq

/-- The triple returned by `price_op`: per-step profit rate, profit, and
the balance reached after paying the effective cost. -/
structure PriceResult where
  rate : ℚ
  profit : ℚ
  low : ℚ
deriving DecidableEq

/-- The cost loop of `price_op` (market.py lines 90-92): sum the ask
prices of the cost resources, threading the market through each call. -/
def sumAskCosts (m : Market) : List (String × Nat) → ℚ × Market
  | [] => (0, m)
  | (r, n) :: rest =>
      let p := (ask_at_st m r n).1
      let m1 := (ask_at_st m r n).2
      (p + (sumAskCosts m1 rest).1, (sumAskCosts m1 rest).2)

/-- The earnings loop of `price_op` (market.py lines 101-103): sum the
bid prices of the product resources, threading the market. -/
def sumBidProducts (m : Market) : List (String × Nat) → ℚ × Market
  | [] => (0, m)
  | (r, n) :: rest =>
      let p := (bid_at_st m r n).1
      let m1 := (bid_at_st m r n).2
      (p + (sumBidProducts m1 rest).1, (sumBidProducts m1 rest).2)

/-- `price_op(market, op, rate, balance)` (market.py lines 84-109) in
state-passing form.  When the summed cost exceeds the balance the
shortfall is financed: `loan = max(0, cost - balance) * (1+rate)^time`
and the cost becomes `balance + loan`.  In Python `profit / op.time`
raises ZeroDivisionError for a zero-duration operation; in `ℚ` division
by zero is total (claims about `price_op` assume duration at least 1). -/
def price_op_st (m : Market) (op : Op) (rate balance : ℚ) : PriceResult × Market :=
  let cost0 := (sumAskCosts m op.costs).1
  let m1 := (sumAskCosts m op.costs).2
  let cost := if balance < cost0
    then balance + max 0 (cost0 - balance) * (1 + rate) ^ op.time
    else cost0
  let earnings := (sumBidProducts m1 op.products).1
  let m2 := (sumBidProducts m1 op.products).2
  let profit := earnings - cost
  (⟨profit / (op.time : ℚ), profit, balance - cost⟩, m2)

/-- Pure view of `price_op`. -/
def price_op (m : Market) (op : Op) (rate balance : ℚ) : PriceResult :=
  (price_op_st m op rate balance).1

/-- The no-op profit of `choose_op` (unit.py lines 34-38): cost of
carrying debt when the balance is negative, otherwise zero. -/
def noop_profit (rate balance : ℚ) : ℚ :=
  if balance < 0 then -(-balance * rate) else 0

/-- The result triple of `choose_op`: chosen operation (`None` for the
no-op), its profit, and its profit rate. -/
structure ChooseResult where
  op? : Option Op
  profit : ℚ
  rate : ℚ
deriving DecidableEq

/-- The candidate loop of `choose_op` (unit.py lines 44-53), pure view:
skip an operation whose post-cost balance breaches `min_balance`, skip
one whose duration exceeds `max_time`, select one whose profit rate
strictly beats the best so far. -/
def chooseLoop (m : Market) (rate balance min_balance : ℚ) (max_time : Int) :
    List Op → Option Op → ℚ → ℚ → ChooseResult
  | [], best, bp, br => ⟨best, bp, br⟩
  | op :: rest, best, bp, br =>
      let pr := price_op m op rate balance
      if pr.low < min_balance then
        chooseLoop m rate balance min_balance max_time rest best bp br
      else if max_time < (op.time : Int) then
        chooseLoop m rate balance min_balance max_time rest best bp br
      else if br < pr.rate then
        chooseLoop m rate balance min_balance max_time rest (some op) pr.profit pr.rate
      else
        chooseLoop m rate balance min_balance max_time rest best bp br

/-- The candidate loop of `choose_op` in state-passing form, threading
the market through each `price_op` call. -/
def chooseLoopSt (rate balance min_balance : ℚ) (max_time : Int) :
    List Op → Market → Option Op → ℚ → ℚ → ChooseResult × Market
  | [], m, best, bp, br => (⟨best, bp, br⟩, m)
  | op :: rest, m, best, bp, br =>
      let pr := (price_op_st m op rate balance).1
      let m1 := (price_op_st m op rate balance).2
      if pr.low < min_balance then
        chooseLoopSt rate balance min_balance max_time rest m1 best bp br
      else if max_time < (op.time : Int) then
        chooseLoopSt rate balance min_balance max_time rest m1 best bp br
      else if br < pr.rate then
        chooseLoopSt rate balance min_balance max_time rest m1 (some op) pr.profit pr.rate
      else
        chooseLoopSt rate balance min_balance max_time rest m1 best bp br

/-- `choose_op(market, ops, rate, balance, min_balance, max_time)`
(unit.py lines 29-55) in state-passing form. -/
def choose_op_st (m : Market) (ops : List Op) (rate balance min_balance : ℚ)
    (max_time : Int) : ChooseResult × Market :=
  chooseLoopSt rate balance min_balance max_time ops m none
    (noop_profit rate balance) (noop_profit rate balance)

/-- Pure view of `choose_op`. -/
def choose_op (m : Market) (ops : List Op) (rate balance min_balance : ℚ)
    (max_time : Int) : ChooseResult :=
  (choose_op_st m ops rate balance min_balance max_time).1

/-- A unit's state dictionary (unit.py module docstring). -/
structure UState where
  age : Int
  busy : Int
  eat_phase : Int
  spawn_phase : Int
  career : String
  balance : ℚ
  name : String
deriving DecidableEq

/-- A career's rolling statistics dictionary. -/
structure Stats where
  total_balance : ℚ
  total_age : Int
  population : Int
  avg_earnings : ℚ
deriving DecidableEq

/-- A career record: statistics plus the list of available operations. -/
structure Career where
  stats : Stats
  ops : List Op
deriving DecidableEq

/-- The market-mutation half of `perform_op`: buy every cost resource. -/
def buyAll (m : Market) : List (String × Nat) → Market
  | [] => m
  | (r, n) :: rest => buyAll (buy m r n) rest

/-- The market-mutation half of `perform_op`: sell every product. -/
def sellAll (m : Market) : List (String × Nat) → Market
  | [] => m
  | (r, n) :: rest => sellAll (sell m r n) rest

/-- `perform_op(market, unit_state, op, profit)` (unit.py lines 57-78):
credit the profit, and for a real operation buy the costs, sell the
products and add the duration to `busy`. -/
def perform_op (m : Market) (st : UState) (op? : Option Op) (profit : ℚ) :
    Market × UState :=
  let st1 := { st with balance := st.balance + profit }
  match op? with
  | none => (m, st1)
  | some op =>
      (sellAll (buyAll m op.costs) op.products,
       { st1 with busy := st1.busy + (op.time : Int) })

/-- Zero-pad to width four, mirroring the `'%04d'` format used by
`new_name`; exact for the non-negative ids the sequencer produces. -/
def pad4 (n : Int) : String :=
  (if n < 10 then "000" else if n < 100 then "00" else if n < 1000 then "0" else "")
    ++ toString n

/-- Read a career's next-id counter; `NEXT_UNIT_ID` is a `defaultdict`
with default 0. -/
def getId (ids : List (String × Int)) (career : String) : Int :=
  (lookupKey ids career).getD 0

/-- `new_name(career)` (unit.py lines 81-88): increment the career's
counter, then format `'%s_%04d'`; returns the name and updated table. -/
def new_name (ids : List (String × Int)) (career : String) :
    String × List (String × Int) :=
  let ids1 := insertKey ids career (getId ids career + 1)
  (career ++ "_" ++ pad4 (getId ids1 career), ids1)

/-- Python's `max(keys, key=...)`: the first key attaining the maximal
`avg_earnings`; `None` for an empty careers dict, where Python raises
`ValueError`. -/
def argmaxCareer (cs : List (String × Career)) : Option String :=
  match cs with
  | [] => none
  | (k, c) :: rest =>
      some ((rest.foldl
        (fun best x =>
          if best.2 < x.2.stats.avg_earnings then (x.1, x.2.stats.avg_earnings) else best)
        (k, c.stats.avg_earnings)).1)

/-- The whole mutable state threaded through one tick: market, careers,
units, the `NEXT_UNIT_ID` table, and an explicit stream of random draws
standing for Python's `randint` source (`randint(0, hi)` is modelled as
`stream n % (hi + 1)`, which satisfies the stdlib contract of landing in
`[0, hi]`). -/
structure SimState where
  market : Market
  careers : List (String × Career)
  units : List (String × UState)
  nextIds : List (String × Int)
  rng : Nat → Nat
  rngIdx : Nat

/-- The per-tick policy parameters of `step_time`. -/
structure TickCfg where
  rate : ℚ
  min_balance : ℚ
  max_age : Int
  eat_every : Nat
  spawn_every : Nat

/-- `spawn_unit(t, careers, units, parent, eat_every, spawn_every)`
(unit.py lines 90-102): pick the career with the highest `avg_earnings`,
generate a fresh name, and insert a newborn with age 0, busy 0,
balance 0 and random phases (`spawn_phase` is drawn first, matching the
keyword-argument evaluation order).  Returns the new state and the name
spawned; an empty careers dict (a `ValueError` in Python) spawns
nothing. -/
def spawn_unit (eat_every spawn_every : Nat) (S : SimState) :
    SimState × Option String :=
  match argmaxCareer S.careers with
  | none => (S, none)
  | some career =>
      let name := (new_name S.nextIds career).1
      let ids1 := (new_name S.nextIds career).2
      let sp : Int := (S.rng S.rngIdx % spawn_every : Nat)
      let ep : Int := (S.rng (S.rngIdx + 1) % eat_every : Nat)
      let st : UState :=
        { age := 0, busy := 0, eat_phase := ep, spawn_phase := sp,
          career := career, balance := 0, name := name }
      ({ S with units := insertKey S.units name st, nextIds := ids1,
                rngIdx := S.rngIdx + 2 }, some name)

/-- The eat step of `step_time` (unit.py lines 113-121).  On the unit's
eat tick, if paying the food ask price would drop the balance below
`min_balance` the unit is popped from the units dict (it starves);
otherwise it pays and the food is bought.  The returned `Bool` records
whether the units dict still holds this unit's record ("linked"), which
controls whether later mutations of the local state are visible in the
dict. -/
def eatStep (cfg : TickCfg) (S : SimState) (key : String) (st : UState) :
    SimState × UState × Bool :=
  if st.age % (cfg.eat_every : Int) = st.eat_phase then
    let cost := ask_at S.market "food" 1
    if st.balance - cost < cfg.min_balance then
      ({ S with units := eraseKey S.units key }, st, false)
    else
      ({ S with market := buy S.market "food" 1 },
       { st with balance := st.balance - cost }, true)
  else (S, st, true)

/-- The reproduce step of `step_time` (unit.py lines 124-132).  On the
unit's spawn tick, if a babykit is affordable without breaching
`min_balance`, pay, buy it and spawn a newborn.  Note the source has no
starvation guard here: this step runs for starved units too.  If the
generated name collides with this unit's own key the newborn record
replaces it in the dict, severing the link. -/
def spawnStep (cfg : TickCfg) (S : SimState) (key : String) (st : UState)
    (linked : Bool) : SimState × UState × Bool :=
  if st.age % (cfg.spawn_every : Int) = st.spawn_phase then
    let cost := ask_at S.market "babykits" 1
    if st.balance - cost < cfg.min_balance then (S, st, linked)
    else
      let S1 := { S with market := buy S.market "babykits" 1 }
      let S2 := (spawn_unit cfg.eat_every cfg.spawn_every S1).1
      let name? := (spawn_unit cfg.eat_every cfg.spawn_every S1).2
      (S2, { st with balance := st.balance - cost },
       if name? = some key then false else linked)
  else (S, st, linked)

/-- The act step of `step_time` (unit.py lines 135-143): an idle unit
runs `choose_op` over its career's operations with
`max_time = max_age - age` and performs the result; a busy unit counts
down.  A career name missing from the careers dict is a `KeyError` in
Python; the total model supplies no operations there. -/
def actStep (cfg : TickCfg) (S : SimState) (st : UState) : SimState × UState :=
  if st.busy = 0 then
    let ops := match lookupKey S.careers st.career with
      | some c => c.ops
      | none => []
    let res := choose_op S.market ops cfg.rate st.balance cfg.min_balance
      (cfg.max_age - st.age)
    let mst := perform_op S.market st res.op? res.profit
    ({ S with market := mst.1 }, mst.2)
  else (S, { st with busy := st.busy - 1 })

/-- The age step of `step_time` (unit.py lines 146-150): increment the
age; if the dict still holds this unit's record the mutations performed
on the local state are what the dict sees; at `max_age` the unit dies,
popping whatever record currently sits under its key. -/
def ageStep (cfg : TickCfg) (S : SimState) (key : String) (st : UState)
    (linked : Bool) : SimState × UState :=
  let st1 := { st with age := st.age + 1 }
  let S1 := if linked then { S with units := insertKey S.units key st1 } else S
  let S2 := if cfg.max_age ≤ st1.age
    then { S1 with units := eraseKey S1.units key }
    else S1
  (S2, st1)

/-- The reproduce/act/age tail of one iteration of the unit loop: what
runs after the eat step, starved or not. -/
def afterEat (cfg : TickCfg) (S : SimState) (key : String) (st : UState)
    (linked : Bool) : SimState × (String × UState) :=
  let a := spawnStep cfg S key st linked
  let b := actStep cfg a.1 a.2.1
  let c := ageStep cfg b.1 key b.2 a.2.2
  (c.1, (key, c.2))

/-- One iteration of the unit loop of `step_time` (unit.py lines
112-150): eat, then reproduce, act and age.  Also returns the unit's
final local state, which is what the aggregation pass reads. -/
def processUnit (cfg : TickCfg) (S : SimState) (kv : String × UState) :
    SimState × (String × UState) :=
  let e := eatStep cfg S kv.1 kv.2
  afterEat cfg e.1 kv.1 e.2.1 e.2.2

/-- The sequential fold of the unit loop over the sorted snapshot list,
collecting each unit's final state in order. -/
def processAll (cfg : TickCfg) : SimState → List (String × UState) →
    SimState × List (String × UState)
  | S, [] => (S, [])
  | S, kv :: rest =>
      let r := processUnit cfg S kv
      ((processAll cfg r.1 rest).1, r.2 :: (processAll cfg r.1 rest).2)

/-- `unit_list.sort(key=balance, reverse=False)` (unit.py lines
110-111): the stable ascending-balance sort of the snapshot taken at
tick start.  Python's `list.sort` is stable, and a stable sort's output
is unique, so insertion sort models it exactly. -/
def sortUnits (us : List (String × UState)) : List (String × UState) :=
  List.insertionSort (fun a b => a.2.balance ≤ b.2.balance) us

/-- First aggregation loop (unit.py lines 153-156): reset
`total_balance`, `total_age` and `population` of every career. -/
def zeroStats (cs : List (String × Career)) : List (String × Career) :=
  cs.map (fun kc => (kc.1, { kc.2 with stats := { kc.2.stats with
    total_balance := 0, total_age := 0, population := 0 } }))

/-- Second aggregation loop (unit.py lines 157-161): walk `unit_list`
(the tick-start snapshot, carrying each unit's end-of-tick state) and
accumulate into that unit's career.  A career name missing from the
dict is a `KeyError` in Python; the total model skips it. -/
def accumStats (cs : List (String × Career)) :
    List (String × UState) → List (String × Career)
  | [] => cs
  | kv :: rest =>
      let cs1 := match lookupKey cs kv.2.career with
        | some c => setKey cs kv.2.career { c with stats := { c.stats with
            total_balance := c.stats.total_balance + kv.2.balance,
            total_age := c.stats.total_age + kv.2.age,
            population := c.stats.population + 1 } }
        | none => cs
      accumStats cs1 rest

/-- Third aggregation loop (unit.py lines 162-165):
`avg_earnings = total_balance / (total_age + 1)`. -/
def finalizeStats (cs : List (String × Career)) : List (String × Career) :=
  cs.map (fun kc => (kc.1, { kc.2 with stats := { kc.2.stats with
    avg_earnings := kc.2.stats.total_balance / ((kc.2.stats.total_age : ℚ) + 1) } }))

/-- `step_time(t, market, careers, units, rate, ...)` (unit.py lines
104-168): snapshot the units, sort ascending by balance, process each
unit sequentially, then recompute every career's statistics from the
snapshot list.  The `t` argument only feeds logging and is omitted. -/
def step_time (cfg : TickCfg) (S : SimState) : SimState :=
  { (processAll cfg S (sortUnits S.units)).1 with
    careers := finalizeStats (accumStats
      (zeroStats (processAll cfg S (sortUnits S.units)).1.careers)
      (processAll cfg S (sortUnits S.units)).2) }

/-! Literal (error-propagating) translations.  The definitions above
follow the evident intent of the pricing code (`res` read as the record
bound as `rec`); the definitions below keep the `NameError` that the
source as written raises inside `ask_at`/`bid_at`, and propagate it the
way a Python exception would, through `price_op`, `choose_op` and the
per-unit loop of `step_time`. -/

/-- `true` iff the literal computation raised an exception. -/
def raisesError {α : Type} : Except PyErr α → Bool
  | Except.error _ => true
  | Except.ok _ => false

/-- The exception raised by a literal computation, if any. -/
def errOf {α : Type} : Except PyErr α → Option PyErr
  | Except.error e => some e
  | Except.ok _ => none

/-- The cost loop of `price_op` (market.py lines 90-92) over the literal
`ask_at`: the first iteration's `NameError` aborts the sum. -/
def sumAskCostsLiteral (m : Market) : List (String × Nat) → Except PyErr ℚ
  | [] => Except.ok 0
  | (r, n) :: rest =>
      match ask_at_literal m r (n : Int) with
      | Except.error e => Except.error e
      | Except.ok p =>
          match sumAskCostsLiteral m rest with
          | Except.error e => Except.error e
          | Except.ok s => Except.ok (p + s)

/-- The earnings loop of `price_op` (market.py lines 101-103) over the
literal `bid_at`. -/
def sumBidProductsLiteral (m : Market) : List (String × Nat) → Except PyErr ℚ
  | [] => Except.ok 0
  | (r, n) :: rest =>
      match bid_at_literal m r (n : Int) with
      | Except.error e => Except.error e
      | Except.ok p =>
          match sumBidProductsLiteral m rest with
          | Except.error e => Except.error e
          | Except.ok s => Except.ok (p + s)

/-- Literal `price_op` (market.py lines 84-109): cost loop, financing,
earnings loop, then `profit / op.time` (a `ZeroDivisionError` for a
zero-duration operation).  It returns a triple only when both resource
loops are empty, since any `ask_at`/`bid_at` call raises. -/
def price_op_literal (m : Market) (op : Op) (rate balance : ℚ) :
    Except PyErr PriceResult :=
  match sumAskCostsLiteral m op.costs with
  | Except.error e => Except.error e
  | Except.ok cost0 =>
      let cost := if balance < cost0
        then balance + max 0 (cost0 - balance) * (1 + rate) ^ op.time
        else cost0
      match sumBidProductsLiteral m op.products with
      | Except.error e => Except.error e
      | Except.ok earnings =>
          if op.time = 0 then Except.error PyErr.zeroDivisionError
          else Except.ok ⟨(earnings - cost) / (op.time : ℚ), earnings - cost,
            balance - cost⟩

/-- The candidate loop of `choose_op` (unit.py lines 44-53) over the
literal `price_op`: the first candidate whose pricing raises aborts the
scan. -/
def chooseLoopLiteral (m : Market) (rate balance min_balance : ℚ) (max_time : Int) :
    List Op → Option Op → ℚ → ℚ → Except PyErr ChooseResult
  | [], best, bp, br => Except.ok ⟨best, bp, br⟩
  | op :: rest, best, bp, br =>
      match price_op_literal m op rate balance with
      | Except.error e => Except.error e
      | Except.ok pr =>
          if pr.low < min_balance then
            chooseLoopLiteral m rate balance min_balance max_time rest best bp br
          else if max_time < (op.time : Int) then
            chooseLoopLiteral m rate balance min_balance max_time rest best bp br
          else if br < pr.rate then
            chooseLoopLiteral m rate balance min_balance max_time rest (some op)
              pr.profit pr.rate
          else
            chooseLoopLiteral m rate balance min_balance max_time rest best bp br

/-- Literal `choose_op` (unit.py lines 29-55). -/
def choose_op_literal (m : Market) (ops : List Op) (rate balance min_balance : ℚ)
    (max_time : Int) : Except PyErr ChooseResult :=
  chooseLoopLiteral m rate balance min_balance max_time ops none
    (noop_profit rate balance) (noop_profit rate balance)

/-- Literal eat step of `step_time` (unit.py lines 113-121): on the eat
tick, `cost = ask_at(market, 'food')` runs before the affordability
check, so the `NameError` is raised before any starvation pop. -/
def eatStep_literal (cfg : TickCfg) (S : SimState) (key : String) (st : UState) :
    Except PyErr (SimState × UState × Bool) :=
  if st.age % (cfg.eat_every : Int) = st.eat_phase then
    match ask_at_literal S.market "food" 1 with
    | Except.error e => Except.error e
    | Except.ok cost =>
        if st.balance - cost < cfg.min_balance then
          Except.ok ({ S with units := eraseKey S.units key }, st, false)
        else
          Except.ok ({ S with market := buy S.market "food" 1 },
            { st with balance := st.balance - cost }, true)
  else Except.ok (S, st, true)

/-- Literal reproduce step of `step_time` (unit.py lines 124-132). -/
def spawnStep_literal (cfg : TickCfg) (S : SimState) (key : String) (st : UState)
    (linked : Bool) : Except PyErr (SimState × UState × Bool) :=
  if st.age % (cfg.spawn_every : Int) = st.spawn_phase then
    match ask_at_literal S.market "babykits" 1 with
    | Except.error e => Except.error e
    | Except.ok cost =>
        if st.balance - cost < cfg.min_balance then Except.ok (S, st, linked)
        else
          Except.ok ((spawn_unit cfg.eat_every cfg.spawn_every
              { S with market := buy S.market "babykits" 1 }).1,
            { st with balance := st.balance - cost },
            if (spawn_unit cfg.eat_every cfg.spawn_every
                { S with market := buy S.market "babykits" 1 }).2 = some key
              then false else linked)
  else Except.ok (S, st, linked)

/-- Literal act step of `step_time` (unit.py lines 135-143), over the
literal `choose_op`. -/
def actStep_literal (cfg : TickCfg) (S : SimState) (st : UState) :
    Except PyErr (SimState × UState) :=
  if st.busy = 0 then
    match choose_op_literal S.market
        (match lookupKey S.careers st.career with
          | some c => c.ops
          | none => [])
        cfg.rate st.balance cfg.min_balance (cfg.max_age - st.age) with
    | Except.error e => Except.error e
    | Except.ok res =>
        Except.ok ({ S with market := (perform_op S.market st res.op? res.profit).1 },
          (perform_op S.market st res.op? res.profit).2)
  else Except.ok (S, { st with busy := st.busy - 1 })

/-- One literal iteration of the unit loop (unit.py lines 112-150): an
exception in any step aborts the whole call to `step_time`. -/
def processUnit_literal (cfg : TickCfg) (S : SimState) (kv : String × UState) :
    Except PyErr (SimState × (String × UState)) :=
  match eatStep_literal cfg S kv.1 kv.2 with
  | Except.error e => Except.error e
  | Except.ok a =>
      match spawnStep_literal cfg a.1 kv.1 a.2.1 a.2.2 with
      | Except.error e => Except.error e
      | Except.ok b =>
          match actStep_literal cfg b.1 b.2.1 with
          | Except.error e => Except.error e
          | Except.ok c =>
              Except.ok ((ageStep cfg c.1 kv.1 c.2 b.2.2).1,
                (kv.1, (ageStep cfg c.1 kv.1 c.2 b.2.2).2))

/-- The literal sequential fold of the unit loop: the first unit whose
processing raises aborts the tick. -/
def processAll_literal (cfg : TickCfg) : SimState → List (String × UState) →
    Except PyErr (SimState × List (String × UState))
  | S, [] => Except.ok (S, [])
  | S, kv :: rest =>
      match processUnit_literal cfg S kv with
      | Except.error e => Except.error e
      | Except.ok r =>
          match processAll_literal cfg r.1 rest with
          | Except.error e => Except.error e
          | Except.ok rr => Except.ok (rr.1, r.2 :: rr.2)

/-- Literal `step_time` (unit.py lines 104-168): sort the snapshot, fold
the literal per-unit processing, then aggregate; any exception
propagates out of the call. -/
def step_time_literal (cfg : TickCfg) (S : SimState) : Except PyErr SimState :=
  match processAll_literal cfg S (sortUnits S.units) with
  | Except.error e => Except.error e
  | Except.ok r =>
      Except.ok { r.1 with careers := finalizeStats (accumStats
        (zeroStats r.1.careers) r.2) }

/-! Specification-side definitions, written from the claims' words, to be
compared with the source-side definitions above. -/

/-- An operation passes the two filters of `choose_op`: its resulting
balance does not breach `min_balance`, and its duration fits in the
remaining time. -/
def Qualifies (m : Market) (rate balance min_balance : ℚ) (max_time : Int)
    (op : Op) : Prop :=
  min_balance ≤ (price_op m op rate balance).low ∧ (op.time : Int) ≤ max_time

instance (m : Market) (rate balance min_balance : ℚ) (max_time : Int) (op : Op) :
    Decidable (Qualifies m rate balance min_balance max_time op) :=
  inferInstanceAs (Decidable (_ ∧ _))

/-- Sum of the balances of the entries of a processed snapshot that
belong to a given career (specification-side sum). -/
def careerBal (c : String) : List (String × UState) → ℚ
  | [] => 0
  | kv :: rest => (if kv.2.career = c then kv.2.balance else 0) + careerBal c rest

/-- Sum of the ages of the entries of a processed snapshot that belong
to a given career. -/
def careerAge (c : String) : List (String × UState) → Int
  | [] => 0
  | kv :: rest => (if kv.2.career = c then kv.2.age else 0) + careerAge c rest

/-- Number of entries of a processed snapshot that belong to a given
career. -/
def careerPop (c : String) : List (String × UState) → Int
  | [] => 0
  | kv :: rest => (if kv.2.career = c then 1 else 0) + careerPop c rest

/-- The state `spawn_unit` gives a newborn: age 0, busy 0, balance 0,
and phases inside `[0, eat_every)` and `[0, spawn_every)`. -/
def Newborn (eat_every spawn_every : Nat) (st : UState) : Prop :=
  st.age = 0 ∧ st.busy = 0 ∧ st.balance = 0 ∧
  0 ≤ st.eat_phase ∧ st.eat_phase < (eat_every : Int) ∧
  0 ≤ st.spawn_phase ∧ st.spawn_phase < (spawn_every : Int)

/-- Every binding whose key is absent from the reference population `U0`
holds a newborn state. -/
def FreshOnlyNewborns (eat_every spawn_every : Nat) (U0 u : List (String × UState)) :
    Prop :=
  ∀ kv ∈ u, lookupKey U0 kv.1 = none → Newborn eat_every spawn_every kv.2

/-! Association-list lemmas -/

theorem lookupKey_setKey_self {α : Type} (l : List (String × α)) (r : String)
    (v a : α) (h : lookupKey l r = some v) :
    lookupKey (setKey l r a) r = some a := by
  induction l with
  | nil => simp [lookupKey] at h
  | cons hd tl ih =>
      obtain ⟨k, w⟩ := hd
      by_cases hk : k = r
      · simp [lookupKey, setKey, hk]
      · simp only [lookupKey, setKey, if_neg hk] at h ⊢
        exact ih h

theorem setKey_setKey {α : Type} (l : List (String × α)) (r : String) (a b : α) :
    setKey (setKey l r a) r b = setKey l r b := by
  induction l with
  | nil => rfl
  | cons hd tl ih =>
      obtain ⟨k, w⟩ := hd
      by_cases hk : k = r
      · simp [setKey, hk]
      · simp [setKey, hk, ih]

theorem setKey_eq_self {α : Type} (l : List (String × α)) (r : String) (v : α)
    (h : lookupKey l r = some v) : setKey l r v = l := by
  induction l with
  | nil => rfl
  | cons hd tl ih =>
      obtain ⟨k, w⟩ := hd
      by_cases hk : k = r
      · simp only [lookupKey, if_pos hk] at h
        obtain rfl := Option.some_injective _ h
        simp [setKey, hk]
      · simp only [lookupKey, if_neg hk] at h
        simp [setKey, hk, ih h]

/-! The market queries do not mutate the market -/

theorem ask_at_st_snd (m : Market) (r : String) (q : Nat) :
    (ask_at_st m r q).2 = m := by
  unfold ask_at_st
  cases lookupKey m r <;> rfl

theorem bid_at_st_snd (m : Market) (r : String) (q : Nat) :
    (bid_at_st m r q).2 = m := by
  unfold bid_at_st
  cases lookupKey m r <;> rfl

theorem sumAskCosts_snd (l : List (String × Nat)) :
    ∀ m : Market, (sumAskCosts m l).2 = m := by
  induction l with
  | nil => intro m; rfl
  | cons hd tl ih =>
      intro m
      obtain ⟨r, n⟩ := hd
      simp only [sumAskCosts, ask_at_st_snd, ih]

theorem sumBidProducts_snd (l : List (String × Nat)) :
    ∀ m : Market, (sumBidProducts m l).2 = m := by
  induction l with
  | nil => intro m; rfl
  | cons hd tl ih =>
      intro m
      obtain ⟨r, n⟩ := hd
      simp only [sumBidProducts, bid_at_st_snd, ih]

theorem price_op_st_snd (m : Market) (op : Op) (rate balance : ℚ) :
    (price_op_st m op rate balance).2 = m := by
  simp only [price_op_st, sumAskCosts_snd, sumBidProducts_snd]

theorem chooseLoopSt_snd (rate balance minb : ℚ) (mt : Int) :
    ∀ (ops : List Op) (m : Market) (best : Option Op) (bp br : ℚ),
      (chooseLoopSt rate balance minb mt ops m best bp br).2 = m := by
  intro ops
  induction ops with
  | nil => intro m best bp br; rfl
  | cons op rest ih =>
      intro m best bp br
      simp only [chooseLoopSt, price_op_st_snd]
      split_ifs <;> exact ih m _ _ _

/-- C9: evaluating profitability never moves prices.  The state-passing
translations of `ask_at`, `bid_at`, `price_op` and `choose_op` all
return the market they were given — every resource record (its delta,
rate, initial and type) is exactly as it was before the call. -/
theorem C9_queries_preserve_market (m : Market) (r : String) (q : Nat)
    (op : Op) (ops : List Op) (rate balance min_balance : ℚ) (max_time : Int) :
    (ask_at_st m r q).2 = m ∧ (bid_at_st m r q).2 = m ∧
    (price_op_st m op rate balance).2 = m ∧
    (choose_op_st m ops rate balance min_balance max_time).2 = m :=
  ⟨ask_at_st_snd m r q, bid_at_st_snd m r q, price_op_st_snd m op rate balance,
   chooseLoopSt_snd rate balance min_balance max_time ops m none _ _⟩

/-- C7: the claim reads `ask_at(market, r, 0) == 0.0` and
`bid_at(market, r, 0) == 0.0` without raising any error.  That is what
the pricing formulas yield at zero quantity (last two conjuncts), but
the literal code never gets there: for any resource present in the
market, the record-unpacking line reads the unbound name `res`
(market.py lines 23-24 and 58-59; the record is bound as `rec`), so both
functions raise `NameError` even at quantity 0. -/
theorem C7_zero_qty_name_error (m : Market) (r : String)
    (h : (lookupKey m r).isSome = true) :
    ask_at_literal m r 0 = Except.error PyErr.nameError ∧
    bid_at_literal m r 0 = Except.error PyErr.nameError ∧
    ask_at m r 0 = 0 ∧ bid_at m r 0 = 0 := by
  refine ⟨?_, ?_, ?_, ?_⟩
  · simp [ask_at_literal, h]
  · simp [bid_at_literal, h]
  · unfold ask_at ask_at_st
    cases lookupKey m r <;> rfl
  · unfold bid_at bid_at_st
    cases lookupKey m r <;> rfl

/-- Witness for C7 at a concrete market containing `food`. -/
theorem C7_zero_qty_name_error_witness :
    ((lookupKey [("food", RRec.mk RType.linear 0 0 10)] "food").isSome = true) ∧
    (ask_at_literal [("food", RRec.mk RType.linear 0 0 10)] "food" 0 =
        Except.error PyErr.nameError ∧
      bid_at_literal [("food", RRec.mk RType.linear 0 0 10)] "food" 0 =
        Except.error PyErr.nameError ∧
      ask_at [("food", RRec.mk RType.linear 0 0 10)] "food" 0 = 0 ∧
      bid_at [("food", RRec.mk RType.linear 0 0 10)] "food" 0 = 0) :=
  ⟨by decide, C7_zero_qty_name_error _ "food" (by decide)⟩

/-- C8: buying `q` units of a resource present in the market and then
selling `q` units of it restores the resource's net delta, leaving the
whole market unchanged. -/
theorem C8_buy_sell_roundtrip (m : Market) (r : String) (q : Nat)
    (h : (lookupKey m r).isSome = true) :
    sell (buy m r q) r q = m := by
  obtain ⟨rec, hrec⟩ := Option.isSome_iff_exists.mp h
  have hbuy : buy m r q = setKey m r { rec with delta := rec.delta + (q : Int) } := by
    unfold buy
    rw [hrec]
  have hlook : lookupKey (setKey m r { rec with delta := rec.delta + (q : Int) }) r =
      some { rec with delta := rec.delta + (q : Int) } :=
    lookupKey_setKey_self m r rec _ hrec
  unfold sell
  simp only [hbuy, hlook]
  rw [setKey_setKey]
  have hdelta : rec.delta + (q : Int) - (q : Int) = rec.delta := by ring
  simp only [hdelta]
  exact setKey_eq_self m r rec hrec

/-- Witness for C8 at a concrete market and quantity. -/
theorem C8_buy_sell_roundtrip_witness :
    ((lookupKey [("wood", RRec.mk RType.exponential 2 3 5)] "wood").isSome = true) ∧
    sell (buy [("wood", RRec.mk RType.exponential 2 3 5)] "wood" 4) "wood" 4 =
      [("wood", RRec.mk RType.exponential 2 3 5)] :=
  ⟨by decide, C8_buy_sell_roundtrip _ "wood" 4 (by decide)⟩

/-! The literal pricing code always raises -/

theorem ask_at_literal_raises (m : Market) (r : String) (q : Int) :
    raisesError (ask_at_literal m r q) = true := by
  unfold ask_at_literal
  split_ifs <;> rfl

theorem bid_at_literal_raises (m : Market) (r : String) (q : Int) :
    raisesError (bid_at_literal m r q) = true := by
  unfold bid_at_literal
  split_ifs <;> rfl

theorem sumAskCostsLiteral_raises (m : Market) :
    ∀ l : List (String × Nat), l ≠ [] →
      raisesError (sumAskCostsLiteral m l) = true := by
  intro l hl
  match l with
  | [] => exact absurd rfl hl
  | (r, n) :: rest =>
      have h := ask_at_literal_raises m r (n : Int)
      rcases he : ask_at_literal m r (n : Int) with e | p
      · simp only [sumAskCostsLiteral, he]
        rfl
      · rw [he] at h
        simp [raisesError] at h

theorem sumBidProductsLiteral_raises (m : Market) :
    ∀ l : List (String × Nat), l ≠ [] →
      raisesError (sumBidProductsLiteral m l) = true := by
  intro l hl
  match l with
  | [] => exact absurd rfl hl
  | (r, n) :: rest =>
      have h := bid_at_literal_raises m r (n : Int)
      rcases he : bid_at_literal m r (n : Int) with e | p
      · simp only [sumBidProductsLiteral, he]
        rfl
      · rw [he] at h
        simp [raisesError] at h

theorem price_op_literal_raises (m : Market) (op : Op) (rate balance : ℚ)
    (h : op.costs ≠ [] ∨ op.products ≠ []) :
    raisesError (price_op_literal m op rate balance) = true := by
  rcases hc : sumAskCostsLiteral m op.costs with e | c0
  · simp only [price_op_literal, hc]
    rfl
  · rcases h with h | h
    · have := sumAskCostsLiteral_raises m op.costs h
      rw [hc] at this
      simp [raisesError] at this
    · have hp := sumBidProductsLiteral_raises m op.products h
      rcases hb : sumBidProductsLiteral m op.products with e | earn
      · simp only [price_op_literal, hc, hb]
        rfl
      · rw [hb] at hp
        simp [raisesError] at hp

/-- C2: the claim says `price_op` *returns* `(profit_rate, profit,
resulting_balance)` built from the summed ask and bid prices.  The
literal code never returns for any operation with a nonempty cost or
product mapping: the first `ask_at`/`bid_at` call raises `NameError`
(the unbound `res`, see C7), which propagates out of `price_op`. -/
theorem C2_price_op_never_returns (m : Market) (op : Op)
    (interest_rate balance : ℚ) (h : op.costs ≠ [] ∨ op.products ≠ []) :
    raisesError (price_op_literal m op interest_rate balance) = true :=
  price_op_literal_raises m op interest_rate balance h

/-- Witness for C2 at a concrete market and operation with one cost. -/
theorem C2_price_op_never_returns_witness :
    ((Op.mk "mk" [("wood", 2)] [("chair", 1)] 2).costs ≠ []) ∧
    raisesError (price_op_literal
      [("wood", RRec.mk RType.linear 0 1 2), ("chair", RRec.mk RType.linear 0 1 10)]
      (Op.mk "mk" [("wood", 2)] [("chair", 1)] 2) (1 / 10) 1) = true :=
  ⟨by decide, C2_price_op_never_returns
    [("wood", RRec.mk RType.linear 0 1 2), ("chair", RRec.mk RType.linear 0 1 10)]
    (Op.mk "mk" [("wood", 2)] [("chair", 1)] 2) (1 / 10) 1 (Or.inl (by decide))⟩

/-! Characterisation of the choose loop -/

theorem chooseLoopSt_fst (rate balance minb : ℚ) (mt : Int) :
    ∀ (ops : List Op) (m : Market) (best : Option Op) (bp br : ℚ),
      (chooseLoopSt rate balance minb mt ops m best bp br).1 =
        chooseLoop m rate balance minb mt ops best bp br := by
  intro ops
  induction ops with
  | nil => intro m best bp br; rfl
  | cons op rest ih =>
      intro m best bp br
      simp only [chooseLoopSt, chooseLoop, price_op_st_snd, price_op]
      split_ifs <;> exact ih m _ _ _

theorem choose_op_eq_chooseLoop (m : Market) (ops : List Op)
    (rate balance min_balance : ℚ) (max_time : Int) :
    choose_op m ops rate balance min_balance max_time =
      chooseLoop m rate balance min_balance max_time ops none
        (noop_profit rate balance) (noop_profit rate balance) := by
  unfold choose_op choose_op_st
  exact chooseLoopSt_fst rate balance min_balance max_time ops m none _ _

/-- Loop invariant of the candidate scan in `choose_op`: either no
candidate qualifies with a rate strictly above the running best and the
accumulator is returned unchanged, or the scan returns the first
candidate attaining the maximal qualifying rate above the running
best. -/
theorem chooseLoop_spec (m : Market) (rate balance minb : ℚ) (mt : Int) :
    ∀ (ops : List Op) (best : Option Op) (bp br : ℚ),
      (chooseLoop m rate balance minb mt ops best bp br = ⟨best, bp, br⟩ ∧
        ∀ op ∈ ops, Qualifies m rate balance minb mt op →
          (price_op m op rate balance).rate ≤ br) ∨
      (∃ l1 o l2, ops = l1 ++ o :: l2 ∧ Qualifies m rate balance minb mt o ∧
        br < (price_op m o rate balance).rate ∧
        chooseLoop m rate balance minb mt ops best bp br =
          ⟨some o, (price_op m o rate balance).profit,
            (price_op m o rate balance).rate⟩ ∧
        (∀ op ∈ l1, Qualifies m rate balance minb mt op →
          (price_op m op rate balance).rate < (price_op m o rate balance).rate) ∧
        (∀ op ∈ l2, Qualifies m rate balance minb mt op →
          (price_op m op rate balance).rate ≤ (price_op m o rate balance).rate)) := by
  intro ops
  induction ops with
  | nil =>
      intro best bp br
      left
      refine ⟨rfl, ?_⟩
      intro op hop
      simp at hop
  | cons op rest ih =>
      intro best bp br
      by_cases h1 : (price_op m op rate balance).low < minb
      · have hnq : ¬ Qualifies m rate balance minb mt op := by
          intro hq
          exact absurd hq.1 (not_le.mpr h1)
        have hstep : chooseLoop m rate balance minb mt (op :: rest) best bp br =
            chooseLoop m rate balance minb mt rest best bp br := by
          simp only [chooseLoop, if_pos h1]
        rcases ih best bp br with ⟨he, hall⟩ | ⟨l1, o, l2, heq, hq, hbr, hres, hl1, hl2⟩
        · left
          refine ⟨hstep.trans he, ?_⟩
          intro x hx hqx
          rcases List.mem_cons.mp hx with rfl | hx
          · exact absurd hqx hnq
          · exact hall x hx hqx
        · right
          refine ⟨op :: l1, o, l2, by rw [heq, List.cons_append], hq, hbr,
            hstep.trans hres, ?_, hl2⟩
          intro x hx hqx
          rcases List.mem_cons.mp hx with rfl | hx
          · exact absurd hqx hnq
          · exact hl1 x hx hqx
      · by_cases h2 : mt < (op.time : Int)
        · have hnq : ¬ Qualifies m rate balance minb mt op := by
            intro hq
            exact absurd hq.2 (not_le.mpr h2)
          have hstep : chooseLoop m rate balance minb mt (op :: rest) best bp br =
              chooseLoop m rate balance minb mt rest best bp br := by
            simp only [chooseLoop, if_neg h1, if_pos h2]
          rcases ih best bp br with ⟨he, hall⟩ | ⟨l1, o, l2, heq, hq, hbr, hres, hl1, hl2⟩
          · left
            refine ⟨hstep.trans he, ?_⟩
            intro x hx hqx
            rcases List.mem_cons.mp hx with rfl | hx
            · exact absurd hqx hnq
            · exact hall x hx hqx
          · right
            refine ⟨op :: l1, o, l2, by rw [heq, List.cons_append], hq, hbr,
              hstep.trans hres, ?_, hl2⟩
            intro x hx hqx
            rcases List.mem_cons.mp hx with rfl | hx
            · exact absurd hqx hnq
            · exact hl1 x hx hqx
        · have hq : Qualifies m rate balance minb mt op :=
            ⟨not_lt.mp h1, not_lt.mp h2⟩
          by_cases h3 : br < (price_op m op rate balance).rate
          · have hstep : chooseLoop m rate balance minb mt (op :: rest) best bp br =
                chooseLoop m rate balance minb mt rest (some op)
                  (price_op m op rate balance).profit
                  (price_op m op rate balance).rate := by
              simp only [chooseLoop, if_neg h1, if_neg h2, if_pos h3]
            rcases ih (some op) (price_op m op rate balance).profit
                (price_op m op rate balance).rate with
              ⟨he, hall⟩ | ⟨l1, o, l2, heq, hqo, hbr, hres, hl1, hl2⟩
            · right
              refine ⟨[], op, rest, by simp, hq, h3, hstep.trans he, ?_, hall⟩
              intro x hx
              simp at hx
            · right
              refine ⟨op :: l1, o, l2, by rw [heq, List.cons_append], hqo,
                lt_trans h3 hbr, hstep.trans hres, ?_, hl2⟩
              intro x hx hqx
              rcases List.mem_cons.mp hx with rfl | hx
              · exact hbr
              · exact hl1 x hx hqx
          · have hstep : chooseLoop m rate balance minb mt (op :: rest) best bp br =
                chooseLoop m rate balance minb mt rest best bp br := by
              simp only [chooseLoop, if_neg h1, if_neg h2, if_neg h3]
            rcases ih best bp br with ⟨he, hall⟩ | ⟨l1, o, l2, heq, hqo, hbr, hres, hl1, hl2⟩
            · left
              refine ⟨hstep.trans he, ?_⟩
              intro x hx hqx
              rcases List.mem_cons.mp hx with rfl | hx
              · exact not_lt.mp h3
              · exact hall x hx hqx
            · right
              refine ⟨op :: l1, o, l2, by rw [heq, List.cons_append], hqo, hbr,
                hstep.trans hres, ?_, hl2⟩
              intro x hx hqx
              rcases List.mem_cons.mp hx with rfl | hx
              · exact lt_of_le_of_lt (not_lt.mp h3) hbr
              · exact hl1 x hx hqx

/-- C3: whenever `choose_op` returns an actual operation, that
operation's resulting balance as computed by `price_op` is at least
`min_balance` and its duration is at most `max_time`. -/
theorem C3_chosen_op_passes_filters (m : Market) (ops : List Op)
    (rate balance min_balance : ℚ) (max_time : Int) (o : Op)
    (h : (choose_op m ops rate balance min_balance max_time).op? = some o) :
    min_balance ≤ (price_op m o rate balance).low ∧
      (o.time : Int) ≤ max_time := by
  rw [choose_op_eq_chooseLoop] at h
  rcases chooseLoop_spec m rate balance min_balance max_time ops none
      (noop_profit rate balance) (noop_profit rate balance) with
    ⟨he, _⟩ | ⟨l1, o', l2, heq, hq, hbr, hres, hl1, hl2⟩
  · rw [he] at h
    simp at h
  · rw [hres] at h
    obtain rfl : o' = o := by simpa using h
    exact hq

/-- Witness for C3 at a concrete market where a profitable operation is
selected. -/
theorem C3_chosen_op_passes_filters_witness :
    ((choose_op [("chair", RRec.mk RType.linear 0 1 10)]
        [Op.mk "mk" [] [("chair", 1)] 1] 0 0 (-100) 50).op? =
      some (Op.mk "mk" [] [("chair", 1)] 1)) ∧
    ((-100 : ℚ) ≤ (price_op [("chair", RRec.mk RType.linear 0 1 10)]
        (Op.mk "mk" [] [("chair", 1)] 1) 0 0).low ∧
      ((Op.mk "mk" [] [("chair", 1)] 1).time : Int) ≤ 50) :=
  ⟨by with_unfolding_all decide,
   C3_chosen_op_passes_filters [("chair", RRec.mk RType.linear 0 1 10)]
     [Op.mk "mk" [] [("chair", 1)] 1] 0 0 (-100) 50
     (Op.mk "mk" [] [("chair", 1)] 1) (by with_unfolding_all decide)⟩

theorem chooseLoopLiteral_raises (m : Market) (rate balance minb : ℚ) (mt : Int) :
    ∀ (ops : List Op) (best : Option Op) (bp br : ℚ),
      (∃ op ∈ ops, op.costs ≠ [] ∨ op.products ≠ []) →
      raisesError (chooseLoopLiteral m rate balance minb mt ops best bp br) = true := by
  intro ops
  induction ops with
  | nil =>
      intro best bp br h
      simp at h
  | cons op rest ih =>
      intro best bp br h
      rcases hp : price_op_literal m op rate balance with e | pr
      · simp only [chooseLoopLiteral, hp]
        rfl
      · have hop : ¬(op.costs ≠ [] ∨ op.products ≠ []) := by
          intro hcon
          have := price_op_literal_raises m op rate balance hcon
          rw [hp] at this
          simp [raisesError] at this
        have hrest : ∃ x ∈ rest, x.costs ≠ [] ∨ x.products ≠ [] := by
          rcases h with ⟨x, hx, hxx⟩
          rcases List.mem_cons.mp hx with rfl | hx
          · exact absurd hxx hop
          · exact ⟨x, hx, hxx⟩
        simp only [chooseLoopLiteral, hp]
        split_ifs <;> exact ih _ _ _ hrest

/-- C6: the claim promises `choose_op` always yields an outcome: the
no-op triple, or the qualifying candidate with the strictly greatest
profit rate.  The literal code keeps that promise only when every
candidate has empty cost and product mappings: as soon as some candidate
names any resource, the `price_op` call inside the scan raises
`NameError` (the unbound `res`, see C7) and `choose_op` never returns. -/
theorem C6_choose_op_raises_name_error (m : Market) (ops : List Op)
    (rate balance min_balance : ℚ) (max_time : Int)
    (h : ∃ op ∈ ops, op.costs ≠ [] ∨ op.products ≠ []) :
    raisesError (choose_op_literal m ops rate balance min_balance max_time) = true :=
  chooseLoopLiteral_raises m rate balance min_balance max_time ops none
    (noop_profit rate balance) (noop_profit rate balance) h

/-- Witness for C6 at a concrete market with one candidate that has a
cost. -/
theorem C6_choose_op_raises_name_error_witness :
    ((Op.mk "mk" [("wood", 2)] [] 2).costs ≠ []) ∧
    raisesError (choose_op_literal [("wood", RRec.mk RType.linear 0 1 2)]
      [Op.mk "mk" [("wood", 2)] [] 2] (1 / 10) 1 (-100) 50) = true :=
  ⟨by decide,
   C6_choose_op_raises_name_error [("wood", RRec.mk RType.linear 0 1 2)]
     [Op.mk "mk" [("wood", 2)] [] 2] (1 / 10) 1 (-100) 50
     ⟨Op.mk "mk" [("wood", 2)] [] 2, List.mem_cons_self _ _, Or.inl (by decide)⟩⟩

/-- C4: `step_time` takes the snapshot of the unit population at the
start of the tick, sorts it into ascending order of the balances held at
that moment (the sorted list is a permutation of the snapshot and is
pairwise balance-ascending), and then processes the units sequentially
in exactly that order — `processAll` folds the shared state through the
sorted list — before recomputing career statistics. -/
theorem C4_ascending_balance_order (cfg : TickCfg) (S : SimState) :
    List.Perm (sortUnits S.units) S.units ∧
    List.Pairwise (fun a b : String × UState => a.2.balance ≤ b.2.balance)
      (sortUnits S.units) ∧
    step_time cfg S = { (processAll cfg S (sortUnits S.units)).1 with
      careers := finalizeStats (accumStats
        (zeroStats (processAll cfg S (sortUnits S.units)).1.careers)
        (processAll cfg S (sortUnits S.units)).2) } := by
  refine ⟨List.perm_insertionSort _ _, ?_, rfl⟩
  haveI ht : IsTotal (String × UState)
      (fun a b : String × UState => a.2.balance ≤ b.2.balance) :=
    ⟨fun a b => le_total _ _⟩
  haveI htr : IsTrans (String × UState)
      (fun a b : String × UState => a.2.balance ≤ b.2.balance) :=
    ⟨fun _ _ _ hab hbc => le_trans hab hbc⟩
  exact List.sorted_insertionSort _ _


/-- C1 counterexample: a concrete tick input satisfying the claim's
trigger — the lone unit `adam` is on its eat tick (age 0 mod 1 = 0) and
even the intended food ask price of 10 would drop its balance 5 below
`min_balance = 0` — where the claim predicts adam is removed from the
population immediately.  The literal code removes nothing: `step_time`
raises `NameError` while computing `cost = ask_at(market, 'food')`
(unit.py line 115 via the unbound `res` of market.py lines 58-59),
before the starvation comparison is ever made, and the tick aborts. -/
theorem C1_counterexample :
    ((0 : Int) % ((1 : Nat) : Int) = 0 ∧
      (5 : ℚ) - ask_at [("food", RRec.mk RType.linear 0 0 10),
        ("babykits", RRec.mk RType.linear 0 0 1)] "food" 1 < 0) ∧
    errOf (step_time_literal (TickCfg.mk 0 0 100 1 1)
      (SimState.mk
        [("food", RRec.mk RType.linear 0 0 10), ("babykits", RRec.mk RType.linear 0 0 1)]
        [("c", Career.mk (Stats.mk 0 0 0 0) [])]
        [("adam", UState.mk 0 5 0 0 "c" 5 "adam")]
        [] (fun _ => 0) 0)) = some PyErr.nameError := by
  with_unfolding_all decide

/-- C1 as amended: when `step_time` processes a unit on its eat tick
(for a market that does contain food), the food ask-price computation
raises `NameError` before the affordability check, so the unit starves
neither literally nor figuratively: it is not removed from the
population, does not reproduce, act or age, and the exception aborts the
processing of that unit and of every unit after it in the tick.  The
claimed starvation-removal path is unreachable in the source. -/
theorem C1_eat_tick_aborts_before_starvation (cfg : TickCfg) (S : SimState)
    (key : String) (st : UState)
    (heat : st.age % (cfg.eat_every : Int) = st.eat_phase)
    (hfood : (lookupKey S.market "food").isSome = true) :
    eatStep_literal cfg S key st = Except.error PyErr.nameError ∧
    processUnit_literal cfg S (key, st) = Except.error PyErr.nameError ∧
    ∀ rest : List (String × UState),
      processAll_literal cfg S ((key, st) :: rest) = Except.error PyErr.nameError := by
  have ha : ask_at_literal S.market "food" 1 = Except.error PyErr.nameError := by
    simp [ask_at_literal, hfood]
  have he : eatStep_literal cfg S key st = Except.error PyErr.nameError := by
    simp only [eatStep_literal, if_pos heat, ha]
  have hp : processUnit_literal cfg S (key, st) = Except.error PyErr.nameError := by
    simp only [processUnit_literal, he]
  refine ⟨he, hp, ?_⟩
  intro rest
  simp only [processAll_literal, hp]

/-- Witness for the amended C1 at the counterexample configuration. -/
theorem C1_eat_tick_aborts_before_starvation_witness :
    (((0 : Int) % ((1 : Nat) : Int) = 0) ∧
      ((lookupKey [("food", RRec.mk RType.linear 0 0 10),
        ("babykits", RRec.mk RType.linear 0 0 1)] "food").isSome = true)) ∧
    eatStep_literal (TickCfg.mk 0 0 100 1 1)
      (SimState.mk
        [("food", RRec.mk RType.linear 0 0 10), ("babykits", RRec.mk RType.linear 0 0 1)]
        [("c", Career.mk (Stats.mk 0 0 0 0) [])]
        [("adam", UState.mk 0 5 0 0 "c" 5 "adam")]
        [] (fun _ => 0) 0) "adam" (UState.mk 0 5 0 0 "c" 5 "adam") =
      Except.error PyErr.nameError ∧
    processUnit_literal (TickCfg.mk 0 0 100 1 1)
      (SimState.mk
        [("food", RRec.mk RType.linear 0 0 10), ("babykits", RRec.mk RType.linear 0 0 1)]
        [("c", Career.mk (Stats.mk 0 0 0 0) [])]
        [("adam", UState.mk 0 5 0 0 "c" 5 "adam")]
        [] (fun _ => 0) 0) ("adam", UState.mk 0 5 0 0 "c" 5 "adam") =
      Except.error PyErr.nameError ∧
    processAll_literal (TickCfg.mk 0 0 100 1 1)
      (SimState.mk
        [("food", RRec.mk RType.linear 0 0 10), ("babykits", RRec.mk RType.linear 0 0 1)]
        [("c", Career.mk (Stats.mk 0 0 0 0) [])]
        [("adam", UState.mk 0 5 0 0 "c" 5 "adam")]
        [] (fun _ => 0) 0) [("adam", UState.mk 0 5 0 0 "c" 5 "adam")] =
      Except.error PyErr.nameError :=
  ⟨⟨by decide, by decide⟩,
   (C1_eat_tick_aborts_before_starvation (TickCfg.mk 0 0 100 1 1)
     (SimState.mk
       [("food", RRec.mk RType.linear 0 0 10), ("babykits", RRec.mk RType.linear 0 0 1)]
       [("c", Career.mk (Stats.mk 0 0 0 0) [])]
       [("adam", UState.mk 0 5 0 0 "c" 5 "adam")]
       [] (fun _ => 0) 0) "adam" (UState.mk 0 5 0 0 "c" 5 "adam")
     (by decide) (by decide)).1,
   (C1_eat_tick_aborts_before_starvation (TickCfg.mk 0 0 100 1 1)
     (SimState.mk
       [("food", RRec.mk RType.linear 0 0 10), ("babykits", RRec.mk RType.linear 0 0 1)]
       [("c", Career.mk (Stats.mk 0 0 0 0) [])]
       [("adam", UState.mk 0 5 0 0 "c" 5 "adam")]
       [] (fun _ => 0) 0) "adam" (UState.mk 0 5 0 0 "c" 5 "adam")
     (by decide) (by decide)).2.1,
   (C1_eat_tick_aborts_before_starvation (TickCfg.mk 0 0 100 1 1)
     (SimState.mk
       [("food", RRec.mk RType.linear 0 0 10), ("babykits", RRec.mk RType.linear 0 0 1)]
       [("c", Career.mk (Stats.mk 0 0 0 0) [])]
       [("adam", UState.mk 0 5 0 0 "c" 5 "adam")]
       [] (fun _ => 0) 0) "adam" (UState.mk 0 5 0 0 "c" 5 "adam")
     (by decide) (by decide)).2.2 []⟩

theorem lookupKey_setKey_ne {α : Type} (l : List (String × α)) (r k : String)
    (a : α) (h : k ≠ r) : lookupKey (setKey l r a) k = lookupKey l k := by
  induction l with
  | nil => rfl
  | cons hd tl ih =>
      obtain ⟨k0, v⟩ := hd
      by_cases hk : k0 = r
      · subst hk
        have hne : ¬ (k0 = k) := fun he => h (he.symm ▸ rfl)
        simp [setKey, lookupKey, hne]
      · simp only [setKey, if_neg hk]
        by_cases he : k0 = k
        · simp [lookupKey, he]
        · simp [lookupKey, he, ih]

theorem lookupKey_zeroStats :
    ∀ (cs : List (String × Career)) (c : String),
      lookupKey (zeroStats cs) c = (lookupKey cs c).map fun car =>
        { car with stats := { car.stats with
          total_balance := 0, total_age := 0, population := 0 } } := by
  intro cs
  induction cs with
  | nil => intro c; rfl
  | cons hd tl ih =>
      intro c
      obtain ⟨k0, v⟩ := hd
      rw [show zeroStats ((k0, v) :: tl) = (k0, { v with stats := { v.stats with
        total_balance := 0, total_age := 0, population := 0 } }) :: zeroStats tl from rfl]
      by_cases hk : k0 = c
      · simp [lookupKey, hk]
      · simp only [lookupKey, if_neg hk]
        exact ih c

theorem lookupKey_finalizeStats :
    ∀ (cs : List (String × Career)) (c : String),
      lookupKey (finalizeStats cs) c = (lookupKey cs c).map fun car =>
        { car with stats := { car.stats with
          avg_earnings := car.stats.total_balance / ((car.stats.total_age : ℚ) + 1) } } := by
  intro cs
  induction cs with
  | nil => intro c; rfl
  | cons hd tl ih =>
      intro c
      obtain ⟨k0, v⟩ := hd
      rw [show finalizeStats ((k0, v) :: tl) = (k0, { v with stats := { v.stats with
        avg_earnings := v.stats.total_balance / ((v.stats.total_age : ℚ) + 1) } }) ::
        finalizeStats tl from rfl]
      by_cases hk : k0 = c
      · simp [lookupKey, hk]
      · simp only [lookupKey, if_neg hk]
        exact ih c

theorem accumStats_lookup :
    ∀ (P : List (String × UState)) (cs : List (String × Career)) (c : String)
      (car : Career), lookupKey cs c = some car →
      lookupKey (accumStats cs P) c = some { car with stats := { car.stats with
        total_balance := car.stats.total_balance + careerBal c P,
        total_age := car.stats.total_age + careerAge c P,
        population := car.stats.population + careerPop c P } } := by
  intro P
  induction P with
  | nil =>
      intro cs c car hc
      simp only [accumStats, careerBal, careerAge, careerPop, add_zero]
      rw [hc]
  | cons kv rest ih =>
      intro cs c car hc
      by_cases hcc : kv.2.career = c
      · subst hcc
        have hstep : accumStats cs (kv :: rest) = accumStats
            (setKey cs kv.2.career { car with stats := { car.stats with
              total_balance := car.stats.total_balance + kv.2.balance,
              total_age := car.stats.total_age + kv.2.age,
              population := car.stats.population + 1 } }) rest := by
          simp only [accumStats, hc]
        rw [hstep]
        have hlook := lookupKey_setKey_self cs kv.2.career car
          { car with stats := { car.stats with
              total_balance := car.stats.total_balance + kv.2.balance,
              total_age := car.stats.total_age + kv.2.age,
              population := car.stats.population + 1 } } hc
        rw [ih _ _ _ hlook]
        simp [careerBal, careerAge, careerPop, add_assoc]
      · have hstep : accumStats cs (kv :: rest) = accumStats
            (match lookupKey cs kv.2.career with
              | some c0 => setKey cs kv.2.career { c0 with stats := { c0.stats with
                  total_balance := c0.stats.total_balance + kv.2.balance,
                  total_age := c0.stats.total_age + kv.2.age,
                  population := c0.stats.population + 1 } }
              | none => cs) rest := rfl
        rw [hstep]
        have hbal : careerBal c (kv :: rest) = careerBal c rest := by
          simp [careerBal, hcc]
        have hage : careerAge c (kv :: rest) = careerAge c rest := by
          simp [careerAge, hcc]
        have hpop : careerPop c (kv :: rest) = careerPop c rest := by
          simp [careerPop, hcc]
        rw [hbal, hage, hpop]
        rcases hl : lookupKey cs kv.2.career with _ | c0
        · simp only [hl]
          exact ih cs c car hc
        · simp only [hl]
          have hne : c ≠ kv.2.career := fun he => hcc he.symm
          refine ih _ c car ?_
          rw [lookupKey_setKey_ne _ _ _ _ hne]
          exact hc

theorem eatStep_careers (cfg : TickCfg) (S : SimState) (key : String) (st : UState) :
    (eatStep cfg S key st).1.careers = S.careers := by
  simp only [eatStep]
  split_ifs <;> rfl

theorem spawn_unit_careers (e s : Nat) (S : SimState) :
    (spawn_unit e s S).1.careers = S.careers := by
  rcases h : argmaxCareer S.careers with _ | c <;> simp [spawn_unit, h]

theorem spawnStep_careers (cfg : TickCfg) (S : SimState) (key : String)
    (st : UState) (linked : Bool) :
    (spawnStep cfg S key st linked).1.careers = S.careers := by
  simp only [spawnStep]
  split_ifs <;> simp [spawn_unit_careers]

theorem actStep_careers (cfg : TickCfg) (S : SimState) (st : UState) :
    (actStep cfg S st).1.careers = S.careers := by
  simp only [actStep]
  split_ifs <;> rfl

theorem ageStep_careers (cfg : TickCfg) (S : SimState) (key : String)
    (st : UState) (linked : Bool) :
    (ageStep cfg S key st linked).1.careers = S.careers := by
  simp only [ageStep]
  split_ifs <;> rfl

theorem processUnit_careers (cfg : TickCfg) (S : SimState) (kv : String × UState) :
    (processUnit cfg S kv).1.careers = S.careers := by
  simp only [processUnit, afterEat]
  rw [ageStep_careers, actStep_careers, spawnStep_careers, eatStep_careers]

theorem processAll_careers (cfg : TickCfg) :
    ∀ (l : List (String × UState)) (S : SimState),
      (processAll cfg S l).1.careers = S.careers := by
  intro l
  induction l with
  | nil => intro S; rfl
  | cons kv rest ih =>
      intro S
      simp only [processAll]
      rw [ih, processUnit_careers]

/-- C5 counterexample: one unit (busy, so it merely counts down), with
balance 7, reaches `max_age = 1` during the tick and dies; no unit
survives, yet the recomputed stats for its career count it —
`population = 1`, `total_balance = 7`, `total_age = 1`,
`avg_earnings = 7/2` — because the aggregation loop walks the tick-start
snapshot, not the surviving population.  The claim predicts
`population = 0` and `avg_earnings = 0` for a career with zero
survivors. -/
theorem C5_counterexample :
    (step_time (TickCfg.mk 0 (-100) 1 100 200)
        (SimState.mk
          [("food", RRec.mk RType.linear 0 0 1), ("babykits", RRec.mk RType.linear 0 0 1)]
          [("c", Career.mk (Stats.mk 0 0 0 0) [])]
          [("bob", UState.mk 0 1 1 1 "c" 7 "bob")]
          [] (fun _ => 0) 0)).units = [] ∧
    lookupKey (step_time (TickCfg.mk 0 (-100) 1 100 200)
        (SimState.mk
          [("food", RRec.mk RType.linear 0 0 1), ("babykits", RRec.mk RType.linear 0 0 1)]
          [("c", Career.mk (Stats.mk 0 0 0 0) [])]
          [("bob", UState.mk 0 1 1 1 "c" 7 "bob")]
          [] (fun _ => 0) 0)).careers "c" =
      some (Career.mk (Stats.mk 7 1 1 (7 / 2)) []) := by
  with_unfolding_all decide

/-- C5 as amended: after a tick, each career's `total_balance`,
`total_age` and `population` equal the sums of balance, age and count
over that career's entries in the tick-start snapshot carrying their
end-of-tick states — the list `(processAll ...).2` that `step_time`
aggregates — which includes units removed during the tick and excludes
units spawned during it; `avg_earnings = total_balance / (total_age + 1)`
(in particular, a career with no snapshot entries gets `0 / (0 + 1) = 0`
and no division error is possible). -/
theorem C5_stats_sum_over_snapshot (cfg : TickCfg) (S : SimState)
    (hcar : ∀ kv ∈ S.units, (lookupKey S.careers kv.2.career).isSome = true)
    (c : String) (car : Career) (hc : lookupKey S.careers c = some car) :
    lookupKey (step_time cfg S).careers c =
      some (Career.mk (Stats.mk
        (careerBal c (processAll cfg S (sortUnits S.units)).2)
        (careerAge c (processAll cfg S (sortUnits S.units)).2)
        (careerPop c (processAll cfg S (sortUnits S.units)).2)
        (careerBal c (processAll cfg S (sortUnits S.units)).2 /
          ((careerAge c (processAll cfg S (sortUnits S.units)).2 : ℚ) + 1))) car.ops) := by
  clear hcar
  have hzero : lookupKey (zeroStats (processAll cfg S (sortUnits S.units)).1.careers) c =
      some { car with stats := { car.stats with
        total_balance := 0, total_age := 0, population := 0 } } := by
    rw [lookupKey_zeroStats, processAll_careers, hc]
    rfl
  have haccum := accumStats_lookup (processAll cfg S (sortUnits S.units)).2 _ c _ hzero
  show lookupKey (finalizeStats _) c = _
  rw [lookupKey_finalizeStats, haccum]
  simp [zero_add]

/-- Witness for the amended C5 at a concrete one-unit configuration. -/
theorem C5_stats_sum_over_snapshot_witness :
    ((∀ kv ∈ [("bob", UState.mk 0 1 1 1 "c" 7 "bob")],
        (lookupKey [("c", Career.mk (Stats.mk 0 0 0 0) [])]
          (Prod.snd kv).career).isSome = true) ∧
      lookupKey [("c", Career.mk (Stats.mk 0 0 0 0) [])] "c" =
        some (Career.mk (Stats.mk 0 0 0 0) [])) ∧
    lookupKey (step_time (TickCfg.mk 0 (-100) 1 100 200)
        (SimState.mk
          [("food", RRec.mk RType.linear 0 0 1), ("babykits", RRec.mk RType.linear 0 0 1)]
          [("c", Career.mk (Stats.mk 0 0 0 0) [])]
          [("bob", UState.mk 0 1 1 1 "c" 7 "bob")]
          [] (fun _ => 0) 0)).careers "c" =
      some (Career.mk (Stats.mk
        (careerBal "c" (processAll (TickCfg.mk 0 (-100) 1 100 200)
          (SimState.mk
            [("food", RRec.mk RType.linear 0 0 1), ("babykits", RRec.mk RType.linear 0 0 1)]
            [("c", Career.mk (Stats.mk 0 0 0 0) [])]
            [("bob", UState.mk 0 1 1 1 "c" 7 "bob")]
            [] (fun _ => 0) 0)
          (sortUnits [("bob", UState.mk 0 1 1 1 "c" 7 "bob")])).2)
        (careerAge "c" (processAll (TickCfg.mk 0 (-100) 1 100 200)
          (SimState.mk
            [("food", RRec.mk RType.linear 0 0 1), ("babykits", RRec.mk RType.linear 0 0 1)]
            [("c", Career.mk (Stats.mk 0 0 0 0) [])]
            [("bob", UState.mk 0 1 1 1 "c" 7 "bob")]
            [] (fun _ => 0) 0)
          (sortUnits [("bob", UState.mk 0 1 1 1 "c" 7 "bob")])).2)
        (careerPop "c" (processAll (TickCfg.mk 0 (-100) 1 100 200)
          (SimState.mk
            [("food", RRec.mk RType.linear 0 0 1), ("babykits", RRec.mk RType.linear 0 0 1)]
            [("c", Career.mk (Stats.mk 0 0 0 0) [])]
            [("bob", UState.mk 0 1 1 1 "c" 7 "bob")]
            [] (fun _ => 0) 0)
          (sortUnits [("bob", UState.mk 0 1 1 1 "c" 7 "bob")])).2)
        (careerBal "c" (processAll (TickCfg.mk 0 (-100) 1 100 200)
          (SimState.mk
            [("food", RRec.mk RType.linear 0 0 1), ("babykits", RRec.mk RType.linear 0 0 1)]
            [("c", Career.mk (Stats.mk 0 0 0 0) [])]
            [("bob", UState.mk 0 1 1 1 "c" 7 "bob")]
            [] (fun _ => 0) 0)
          (sortUnits [("bob", UState.mk 0 1 1 1 "c" 7 "bob")])).2 /
          ((careerAge "c" (processAll (TickCfg.mk 0 (-100) 1 100 200)
            (SimState.mk
              [("food", RRec.mk RType.linear 0 0 1), ("babykits", RRec.mk RType.linear 0 0 1)]
              [("c", Career.mk (Stats.mk 0 0 0 0) [])]
              [("bob", UState.mk 0 1 1 1 "c" 7 "bob")]
              [] (fun _ => 0) 0)
            (sortUnits [("bob", UState.mk 0 1 1 1 "c" 7 "bob")])).2 : ℚ) + 1))) []) :=
  ⟨⟨by decide, by decide⟩,
   C5_stats_sum_over_snapshot (TickCfg.mk 0 (-100) 1 100 200)
     (SimState.mk
       [("food", RRec.mk RType.linear 0 0 1), ("babykits", RRec.mk RType.linear 0 0 1)]
       [("c", Career.mk (Stats.mk 0 0 0 0) [])]
       [("bob", UState.mk 0 1 1 1 "c" 7 "bob")]
       [] (fun _ => 0) 0)
     (by decide) "c" (Career.mk (Stats.mk 0 0 0 0) []) (by decide)⟩

theorem lookupKey_mem {α : Type} :
    ∀ (l : List (String × α)) (k : String) (v : α),
      lookupKey l k = some v → (k, v) ∈ l := by
  intro l
  induction l with
  | nil => intro k v h; simp [lookupKey] at h
  | cons hd tl ih =>
      intro k v h
      obtain ⟨k0, w⟩ := hd
      by_cases hk : k0 = k
      · subst hk
        simp only [lookupKey, if_pos rfl] at h
        obtain rfl := Option.some_injective _ h
        exact List.mem_cons_self _ _
      · simp only [lookupKey, if_neg hk] at h
        exact List.mem_cons_of_mem _ (ih k v h)

theorem mem_lookupKey_isSome {α : Type} :
    ∀ (l : List (String × α)) (k : String) (v : α),
      (k, v) ∈ l → (lookupKey l k).isSome = true := by
  intro l
  induction l with
  | nil => intro k v h; simp at h
  | cons hd tl ih =>
      intro k v h
      obtain ⟨k0, w⟩ := hd
      by_cases hk : k0 = k
      · simp [lookupKey, hk]
      · simp only [lookupKey, if_neg hk]
        rcases List.mem_cons.mp h with he | h
        · exact absurd (congrArg Prod.fst he).symm hk
        · exact ih k v h

theorem mem_eraseKey {α : Type} :
    ∀ (l : List (String × α)) (k : String) (x : String × α),
      x ∈ eraseKey l k → x ∈ l := by
  intro l
  induction l with
  | nil => intro k x h; simp [eraseKey] at h
  | cons hd tl ih =>
      intro k x h
      obtain ⟨k0, w⟩ := hd
      by_cases hk : k0 = k
      · simp only [eraseKey, if_pos hk] at h
        exact List.mem_cons_of_mem _ h
      · simp only [eraseKey, if_neg hk] at h
        rcases List.mem_cons.mp h with he | h
        · exact he ▸ List.mem_cons_self _ _
        · exact List.mem_cons_of_mem _ (ih k x h)

theorem mem_setKey {α : Type} :
    ∀ (l : List (String × α)) (k : String) (a : α) (x : String × α),
      x ∈ setKey l k a → x ∈ l ∨ x = (k, a) := by
  intro l
  induction l with
  | nil => intro k a x h; simp [setKey] at h
  | cons hd tl ih =>
      intro k a x h
      obtain ⟨k0, w⟩ := hd
      by_cases hk : k0 = k
      · subst hk
        simp only [setKey, if_pos rfl] at h
        rcases List.mem_cons.mp h with he | h
        · right; exact he
        · left; exact List.mem_cons_of_mem _ h
      · simp only [setKey, if_neg hk] at h
        rcases List.mem_cons.mp h with he | h
        · left; exact he ▸ List.mem_cons_self _ _
        · rcases ih k a x h with h | h
          · left; exact List.mem_cons_of_mem _ h
          · right; exact h

theorem mem_insertKey {α : Type} (l : List (String × α)) (k : String) (a : α)
    (x : String × α) (h : x ∈ insertKey l k a) : x ∈ l ∨ x = (k, a) := by
  unfold insertKey at h
  split_ifs at h
  · exact mem_setKey l k a x h
  · rcases List.mem_append.mp h with h | h
    · left; exact h
    · right; simpa using h

theorem freshOnlyNewborns_eraseKey {e s : Nat} {U0 u : List (String × UState)}
    (h : FreshOnlyNewborns e s U0 u) (k : String) :
    FreshOnlyNewborns e s U0 (eraseKey u k) :=
  fun kv hm hf => h kv (mem_eraseKey u k kv hm) hf

theorem freshOnlyNewborns_insert_stale {e s : Nat} {U0 u : List (String × UState)}
    (h : FreshOnlyNewborns e s U0 u) (k : String) (a : UState)
    (hk : (lookupKey U0 k).isSome = true) :
    FreshOnlyNewborns e s U0 (insertKey u k a) := by
  intro kv hm hf
  rcases mem_insertKey u k a kv hm with hm | he
  · exact h kv hm hf
  · exfalso
    rw [he] at hf
    rw [hf] at hk
    simp at hk

theorem freshOnlyNewborns_insert_newborn {e s : Nat} {U0 u : List (String × UState)}
    (h : FreshOnlyNewborns e s U0 u) (k : String) (a : UState)
    (ha : Newborn e s a) :
    FreshOnlyNewborns e s U0 (insertKey u k a) := by
  intro kv hm hf
  rcases mem_insertKey u k a kv hm with hm | he
  · exact h kv hm hf
  · rw [he]
    exact ha

theorem spawn_unit_fresh {U0 : List (String × UState)} (e s : Nat)
    (he : 1 ≤ e) (hs : 1 ≤ s) (S : SimState)
    (h : FreshOnlyNewborns e s U0 S.units) :
    FreshOnlyNewborns e s U0 (spawn_unit e s S).1.units := by
  rcases ha : argmaxCareer S.careers with _ | c
  · simpa [spawn_unit, ha] using h
  · have hu : (spawn_unit e s S).1.units =
        insertKey S.units (new_name S.nextIds c).1
          (UState.mk 0 0 ((S.rng (S.rngIdx + 1) % e : Nat) : Int)
            ((S.rng S.rngIdx % s : Nat) : Int) c 0 (new_name S.nextIds c).1) := by
      simp [spawn_unit, ha]
    rw [hu]
    refine freshOnlyNewborns_insert_newborn h _ _ ?_
    refine ⟨rfl, rfl, rfl, Int.natCast_nonneg _, ?_, Int.natCast_nonneg _, ?_⟩
    · show ((S.rng (S.rngIdx + 1) % e : Nat) : Int) < (e : Int)
      exact_mod_cast Nat.mod_lt _ (by omega)
    · show ((S.rng S.rngIdx % s : Nat) : Int) < (s : Int)
      exact_mod_cast Nat.mod_lt _ (by omega)

theorem eatStep_fresh {U0 : List (String × UState)} {e s : Nat}
    (cfg : TickCfg) (S : SimState) (key : String) (st : UState)
    (h : FreshOnlyNewborns e s U0 S.units) :
    FreshOnlyNewborns e s U0 (eatStep cfg S key st).1.units := by
  simp only [eatStep]
  split_ifs <;> first
    | exact h
    | exact freshOnlyNewborns_eraseKey h key

theorem spawnStep_fresh {U0 : List (String × UState)} (cfg : TickCfg)
    (he : 1 ≤ cfg.eat_every) (hs : 1 ≤ cfg.spawn_every)
    (S : SimState) (key : String) (st : UState) (linked : Bool)
    (h : FreshOnlyNewborns cfg.eat_every cfg.spawn_every U0 S.units) :
    FreshOnlyNewborns cfg.eat_every cfg.spawn_every U0
      (spawnStep cfg S key st linked).1.units := by
  simp only [spawnStep]
  split_ifs <;> first
    | exact h
    | exact spawn_unit_fresh cfg.eat_every cfg.spawn_every he hs _ h

theorem actStep_units (cfg : TickCfg) (S : SimState) (st : UState) :
    (actStep cfg S st).1.units = S.units := by
  simp only [actStep]
  split_ifs <;> rfl

theorem ageStep_fresh {U0 : List (String × UState)} {e s : Nat}
    (cfg : TickCfg) (S : SimState) (key : String) (st : UState) (linked : Bool)
    (hkey : (lookupKey U0 key).isSome = true)
    (h : FreshOnlyNewborns e s U0 S.units) :
    FreshOnlyNewborns e s U0 (ageStep cfg S key st linked).1.units := by
  simp only [ageStep]
  split_ifs <;> first
    | exact h
    | exact freshOnlyNewborns_eraseKey h key
    | exact freshOnlyNewborns_insert_stale h key _ hkey
    | exact freshOnlyNewborns_eraseKey (freshOnlyNewborns_insert_stale h key _ hkey) key

theorem processUnit_fresh {U0 : List (String × UState)} (cfg : TickCfg)
    (he : 1 ≤ cfg.eat_every) (hs : 1 ≤ cfg.spawn_every)
    (S : SimState) (kv : String × UState)
    (hkey : (lookupKey U0 kv.1).isSome = true)
    (h : FreshOnlyNewborns cfg.eat_every cfg.spawn_every U0 S.units) :
    FreshOnlyNewborns cfg.eat_every cfg.spawn_every U0
      (processUnit cfg S kv).1.units := by
  simp only [processUnit, afterEat]
  refine ageStep_fresh cfg _ kv.1 _ _ hkey ?_
  rw [actStep_units]
  exact spawnStep_fresh cfg he hs _ kv.1 _ _ (eatStep_fresh cfg S kv.1 kv.2 h)

theorem processAll_fresh {U0 : List (String × UState)} (cfg : TickCfg)
    (he : 1 ≤ cfg.eat_every) (hs : 1 ≤ cfg.spawn_every) :
    ∀ (l : List (String × UState)) (S : SimState),
      (∀ kv ∈ l, (lookupKey U0 kv.1).isSome = true) →
      FreshOnlyNewborns cfg.eat_every cfg.spawn_every U0 S.units →
      FreshOnlyNewborns cfg.eat_every cfg.spawn_every U0
        (processAll cfg S l).1.units := by
  intro l
  induction l with
  | nil => intro S _ h; exact h
  | cons kv rest ih =>
      intro S hkeys h
      simp only [processAll]
      exact ih _ (fun x hx => hkeys x (List.mem_cons_of_mem _ hx))
        (processUnit_fresh cfg he hs S kv (hkeys kv (List.mem_cons_self _ _)) h)

theorem processUnit_key (cfg : TickCfg) (S : SimState) (kv : String × UState) :
    (processUnit cfg S kv).2.1 = kv.1 := rfl

theorem processAll_keys (cfg : TickCfg) :
    ∀ (l : List (String × UState)) (S : SimState),
      (processAll cfg S l).2.map Prod.fst = l.map Prod.fst := by
  intro l
  induction l with
  | nil => intro S; rfl
  | cons kv rest ih =>
      intro S
      simp only [processAll, List.map_cons, processUnit_key, ih]

/-- C10: a unit spawned by reproduction during a tick is not processed
during that tick: any key absent from the tick-start population that
resolves after `step_time` holds an untouched newborn record (age 0,
busy 0, balance 0, `eat_phase` in `[0, eat_every)`, `spawn_phase` in
`[0, spawn_every)`); moreover the list the career statistics are summed
over covers exactly the tick-start snapshot keys (so the newborn is
excluded from the recomputed statistics). -/
theorem C10_newborns_not_processed (cfg : TickCfg) (S : SimState)
    (he : 1 ≤ cfg.eat_every) (hs : 1 ≤ cfg.spawn_every) :
    (∀ k, lookupKey S.units k = none →
      ∀ rec, lookupKey (step_time cfg S).units k = some rec →
        Newborn cfg.eat_every cfg.spawn_every rec) ∧
    (processAll cfg S (sortUnits S.units)).2.map Prod.fst =
      (sortUnits S.units).map Prod.fst ∧
    List.Perm ((processAll cfg S (sortUnits S.units)).2.map Prod.fst)
      (S.units.map Prod.fst) := by
  have hperm : List.Perm (sortUnits S.units) S.units := List.perm_insertionSort _ _
  refine ⟨?_, processAll_keys cfg (sortUnits S.units) S, ?_⟩
  · intro k hk rec hrec
    have hunits : (step_time cfg S).units =
        (processAll cfg S (sortUnits S.units)).1.units := rfl
    rw [hunits] at hrec
    have hfresh : FreshOnlyNewborns cfg.eat_every cfg.spawn_every S.units
        (processAll cfg S (sortUnits S.units)).1.units := by
      refine processAll_fresh cfg he hs (sortUnits S.units) S ?_ ?_
      · intro kv hkv
        obtain ⟨k1, v1⟩ := kv
        exact mem_lookupKey_isSome S.units k1 v1 (hperm.subset hkv)
      · intro kv hkv hf
        obtain ⟨k1, v1⟩ := kv
        have := mem_lookupKey_isSome S.units k1 v1 hkv
        rw [hf] at this
        simp at this
    exact hfresh (k, rec) (lookupKey_mem _ k rec hrec) hk
  · rw [processAll_keys cfg (sortUnits S.units) S]
    exact hperm.map Prod.fst

/-- Witness for C10: in a concrete tick a unit reproduces; the newborn
`c_0001` is present at tick end with the untouched newborn state. -/
theorem C10_newborns_not_processed_witness :
    ((1 ≤ (1 : Nat)) ∧
      lookupKey [("eve", UState.mk 0 5 0 0 "c" 100 "eve")] "c_0001" = none ∧
      lookupKey (step_time (TickCfg.mk 0 0 1000 1 1)
        (SimState.mk
          [("food", RRec.mk RType.linear 0 0 1), ("babykits", RRec.mk RType.linear 0 0 1)]
          [("c", Career.mk (Stats.mk 0 0 0 0) [])]
          [("eve", UState.mk 0 5 0 0 "c" 100 "eve")]
          [] (fun _ => 0) 0)).units "c_0001" =
        some (UState.mk 0 0 0 0 "c" 0 "c_0001")) ∧
    Newborn 1 1 (UState.mk 0 0 0 0 "c" 0 "c_0001") :=
  ⟨⟨by decide, by decide, by with_unfolding_all decide⟩,
   (C10_newborns_not_processed (TickCfg.mk 0 0 1000 1 1)
      (SimState.mk
        [("food", RRec.mk RType.linear 0 0 1), ("babykits", RRec.mk RType.linear 0 0 1)]
        [("c", Career.mk (Stats.mk 0 0 0 0) [])]
        [("eve", UState.mk 0 5 0 0 "c" 100 "eve")]
        [] (fun _ => 0) 0) (by decide) (by decide)).1 "c_0001" (by decide)
     (UState.mk 0 0 0 0 "c" 0 "c_0001") (by with_unfolding_all decide)⟩

end Econo
